import Mathlib

/-!
# Verification of the ItemInput editing state machine (LcdMenu)

A shallow embedding of src/src/ItemInput.h: the editable input menu item
with its value buffer, cursor, scrollable view window and display caret
("blinker"). The display interface and the string utilities of utils.h
are not part of the sources at hand, so those primitives are modelled
from the specification; everything else is translated directly from the
C++ code of ItemInput.h.

All positions that the C++ stores in uint8_t variables are modelled as
Nat with an explicit reduction modulo 256 at every point where the C++
performs a narrowing store or parameter conversion.
-/

namespace LcdMenu

/-- Truncation of a nonnegative integer to an unsigned 8-bit store,
as performed by every assignment into a uint8_t variable. -/
def u8 (n : Nat) : Nat := n % 256

/-- Truncation of a (possibly negative) int or size_t expression to a
uint8_t store: reduce modulo 256 and take the nonnegative representative. -/
def i2u8 (x : Int) : Nat := (x % 256).toNat

/-- The Arduino constrain macro on int arithmetic:
amt < low gives low, amt > high gives high, otherwise amt. -/
def constrainI (x lo hi : Int) : Int :=
  if x < lo then lo else if hi < x then hi else x

/-- Modelled from the spec: the fixed per-item data that ItemInput reads
from its collaborators (the DisplayInterface and the stored label, whose
headers are not among the given sources). labelLen is the length of the
label text, maxCols the display column count reported by getMaxCols, and
hasCallback records whether a completion callback was supplied. -/
structure Cfg where
  labelLen : Nat
  maxCols : Nat
  hasCallback : Bool
deriving DecidableEq

/-- The mutable state of one ItemInput item together with the display-owned
pieces it drives: value (the char buffer), view and cursor (uint8_t fields),
the display edit-mode flag and the stored blinker position. -/
structure St where
  value : List Char
  view : Nat
  cursor : Nat
  editMode : Bool
  blinker : Nat
deriving DecidableEq

/-- Observable side effects on the display, in the order the code emits
them: row redraw (with the rendered slice), blinker show/hide/placement,
edit-mode flag changes, and completion-callback invocations. -/
inductive Ev where
  | draw (slice : List Char)
  | clearBlinker
  | drawBlinker
  | setEditMode (b : Bool)
  | resetBlinker (pos : Nat)
  | callbackCall (v : List Char)
deriving DecidableEq

/-- Result of one operation: the handled flag it returns, the state after
it, and the display side effects it performed, in order. -/
structure R where
  handled : Bool
  st : St
  evs : List Ev
deriving DecidableEq

/-- Modelled from the spec: substring of utils.h (not among the given
sources) copies size characters of str starting at index start, fewer if
the string ends earlier. -/
def substring (str : List Char) (start size : Nat) : List Char :=
  (str.drop start).take size

/-- Modelled from the spec: concat of utils.h (not among the given sources)
joins a prefix, one character and a suffix; the two-argument form used for
appending is the special case of an empty suffix. -/
def concat (a : List Char) (c : Char) (b : List Char) : List Char :=
  a ++ [c] ++ b

/-- Modelled from the spec: remove of utils.h (not among the given sources)
deletes cnt characters of the buffer starting at index idx, shifting the
remainder left. -/
def remove (l : List Char) (idx cnt : Nat) : List Char :=
  l.take idx ++ l.drop (idx + cnt)

/-- getViewSize: maxCols - (strlen(text) + 2) - 1, evaluated in size_t
arithmetic and narrowed to the uint8_t return type. -/
def getViewSize (cfg : Cfg) : Nat :=
  i2u8 ((cfg.maxCols : Int) - (cfg.labelLen + 2) - 1)

/-- The slice of the value that ItemInput::draw renders: substring of the
value of length getViewSize starting at view. -/
def visibleSlice (cfg : Cfg) (s : St) : List Char :=
  substring s.value s.view (getViewSize cfg)

/-- constrainBlinkerPosition: lb = strlen(text) + 2 and
ub = lb + strlen(value) as uint8_t locals, ub constrained into
[lb, maxCols - 2], then the argument constrained into [lb, ub].
valueLen is the current strlen(value) at the call site. -/
def constrainBlinkerPosition (cfg : Cfg) (valueLen blinkerPosition : Nat) : Nat :=
  let lb : Nat := u8 (cfg.labelLen + 2)
  let ub0 : Nat := u8 (lb + valueLen)
  let ub : Nat := i2u8 (constrainI ub0 lb ((cfg.maxCols : Int) - 2))
  i2u8 (constrainI blinkerPosition lb ub)

/-- ItemInput::enter. Refuses while edit mode is already enabled; otherwise
moves the cursor to the (uint8_t-truncated) end of the value, jumps the view
to the tail window when the cursor exceeds the view size, redraws, enables
edit mode and places the blinker. -/
def enter (cfg : Cfg) (s : St) : R :=
  if s.editMode then ⟨false, s, []⟩
  else
    let length := u8 s.value.length
    let cursor := length
    let viewSize := getViewSize cfg
    let view := if viewSize < cursor then i2u8 ((length : Int) - ((viewSize : Int) - 1)) else s.view
    let s1 : St := { s with cursor := cursor, view := view }
    let pos := constrainBlinkerPosition cfg s1.value.length
      (i2u8 ((cfg.labelLen : Int) + 2 + cursor - view))
    ⟨true, { s1 with editMode := true, blinker := pos },
      [Ev.draw (visibleSlice cfg s1), Ev.setEditMode true, Ev.resetBlinker pos, Ev.drawBlinker]⟩

/-- ItemInput::back. Refuses while edit mode is disabled; otherwise hides
the blinker, disables edit mode, resets cursor and view to 0, redraws, and
finally invokes the callback with the current value when one is present. -/
def back (cfg : Cfg) (s : St) : R :=
  if s.editMode = false then ⟨false, s, []⟩
  else
    let s1 : St := { s with cursor := 0, view := 0, editMode := false }
    ⟨true, s1,
      [Ev.clearBlinker, Ev.setEditMode false, Ev.draw (visibleSlice cfg s1)]
        ++ if cfg.hasCallback then [Ev.callbackCall s1.value] else []⟩

/-- ItemInput::left. Handled but a no-op at cursor 0; otherwise decrements
the cursor, scrolls the view left by one and redraws when the cursor left
the window, and moves the blinker one column left under the clamp. -/
def left (cfg : Cfg) (s : St) : R :=
  if s.editMode = false then ⟨false, s, []⟩
  else if s.cursor = 0 then ⟨true, s, []⟩
  else
    let cursor := s.cursor - 1
    let view := if cursor < s.view then s.view - 1 else s.view
    let s1 : St := { s with cursor := cursor, view := view }
    let pos := constrainBlinkerPosition cfg s1.value.length (i2u8 ((s.blinker : Int) - 1))
    ⟨true, { s1 with blinker := pos },
      (if cursor < s.view then [Ev.draw (visibleSlice cfg s1)] else [])
        ++ [Ev.resetBlinker pos]⟩

/-- ItemInput::right. Handled but a no-op when the cursor already equals
the value length; otherwise increments the cursor, scrolls the view right
by one and redraws when the cursor passed the window, and moves the blinker
one column right under the clamp. -/
def right (cfg : Cfg) (s : St) : R :=
  if s.editMode = false then ⟨false, s, []⟩
  else if s.cursor = s.value.length then ⟨true, s, []⟩
  else
    let cursor := u8 (s.cursor + 1)
    let viewSize := getViewSize cfg
    let scrolls := s.view + viewSize ≤ cursor
    let view := if scrolls then u8 (s.view + 1) else s.view
    let s1 : St := { s with cursor := cursor, view := view }
    let pos := constrainBlinkerPosition cfg s1.value.length (u8 (s.blinker + 1))
    ⟨true, { s1 with blinker := pos },
      (if scrolls then [Ev.draw (visibleSlice cfg s1)] else [])
        ++ [Ev.resetBlinker pos]⟩

/-- ItemInput::backspace. Handled but a no-op on an empty value or at
cursor 0; otherwise removes the character before the cursor, decrements the
cursor, scrolls the view left by one when the cursor left the window,
redraws and moves the blinker one column left under the clamp. -/
def backspace (cfg : Cfg) (s : St) : R :=
  if s.editMode = false then ⟨false, s, []⟩
  else if s.value.length = 0 ∨ s.cursor = 0 then ⟨true, s, []⟩
  else
    let value := remove s.value (s.cursor - 1) 1
    let cursor := s.cursor - 1
    let view := if cursor < s.view then s.view - 1 else s.view
    let s1 : St := { s with value := value, cursor := cursor, view := view }
    let pos := constrainBlinkerPosition cfg s1.value.length (i2u8 ((s.blinker : Int) - 1))
    ⟨true, { s1 with blinker := pos },
      [Ev.draw (visibleSlice cfg s1), Ev.resetBlinker pos]⟩

/-- ItemInput::typeChar. Inserts at the cursor when the cursor is below the
(uint8_t-truncated) length, splitting the value with substring and concat;
otherwise appends. Then increments the cursor, scrolls the view right by
one when the cursor passed the window, redraws and moves the blinker one
column right under the clamp. -/
def typeChar (cfg : Cfg) (c : Char) (s : St) : R :=
  if s.editMode = false then ⟨false, s, []⟩
  else
    let length := u8 s.value.length
    let value :=
      if s.cursor < length then
        concat (substring s.value 0 s.cursor)
          c (substring s.value s.cursor (length - s.cursor))
      else
        concat s.value c []
    let cursor := u8 (s.cursor + 1)
    let viewSize := getViewSize cfg
    let scrolls := s.view + viewSize ≤ cursor
    let view := if scrolls then u8 (s.view + 1) else s.view
    let s1 : St := { s with value := value, cursor := cursor, view := view }
    let pos := constrainBlinkerPosition cfg s1.value.length (u8 (s.blinker + 1))
    ⟨true, { s1 with blinker := pos },
      [Ev.draw (visibleSlice cfg s1), Ev.resetBlinker pos]⟩

/-- ItemInput::clear. Sets the value to the empty string, redraws and
parks the blinker at the start of the value area. The cursor and the view
fields are left untouched by the code. -/
def clear (cfg : Cfg) (s : St) : R :=
  if s.editMode = false then ⟨false, s, []⟩
  else
    let s1 : St := { s with value := [] }
    let pos := constrainBlinkerPosition cfg 0 (u8 (cfg.labelLen + 2))
    ⟨true, { s1 with blinker := pos },
      [Ev.draw (visibleSlice cfg s1), Ev.resetBlinker pos]⟩

/-- Recognizer for completion-callback events. -/
def isCallbackEv : Ev → Bool
  | .callbackCall _ => true
  | _ => false

/-- The caret position formula of the spec, stated from its words for
comparison with the code: label_len + 2 + (Cursor - ViewOffset), clamped
into the interval from label_len + 2 up to the minimum of
label_len + 2 + len(Value) and TotalColumns - 2. -/
def specCaretPosition (cfg : Cfg) (s : St) : Nat :=
  let lb := cfg.labelLen + 2
  let ub := min (lb + s.value.length) (cfg.maxCols - 2)
  max lb (min (lb + (s.cursor - s.view)) ub)

/-- A display of 9 columns with a 4-character label: view size 2. -/
def cfgNarrow : Cfg := ⟨4, 9, false⟩

/-- A display of 12 columns with a 4-character label: view size 5. -/
def cfgWide : Cfg := ⟨4, 12, false⟩

/-- A display of 16 columns, 1-character label, with a callback. -/
def cfgCb : Cfg := ⟨1, 16, true⟩

/-- A freshly constructed item with empty value, not in edit mode. -/
def stEmpty : St := ⟨[], 0, 0, false, 0⟩

/-- Item holding the value AB, not in edit mode. -/
def stAB : St := ⟨['A', 'B'], 0, 0, false, 0⟩

/-- Item holding the value ABCDEFG, not in edit mode. -/
def stABCDEFG : St := ⟨['A', 'B', 'C', 'D', 'E', 'F', 'G'], 0, 0, false, 0⟩

/-- Item holding a value of 256 characters, not in edit mode. -/
def stLong : St := ⟨List.replicate 256 'A', 0, 0, false, 0⟩

/-- Item holding the value HI, being edited with the cursor at the end. -/
def stHI : St := ⟨['H', 'I'], 0, 2, true, 5⟩

/-- Item holding the value HI, not in edit mode. -/
def stHI0 : St := ⟨['H', 'I'], 0, 0, false, 0⟩

/-- Item holding the value HELLO, being edited with the cursor at 2. -/
def stHELLO : St := ⟨['H', 'E', 'L', 'L', 'O'], 0, 2, true, 8⟩

/-- Item with empty value, being edited, cursor at 0. -/
def stEdit0 : St := ⟨[], 0, 0, true, 6⟩

/-- Item holding the value A, being edited with the cursor at the end. -/
def stEditA : St := ⟨['A'], 0, 1, true, 7⟩

/-- Well-formedness of an editing state: the display geometry is sane,
label plus value fit the 8-bit blinker arithmetic, the cursor is inside
the value and the view window, and the stored blinker is the unclamped
projection of the cursor into screen columns. -/
def WF (cfg : Cfg) (s : St) : Prop :=
  cfg.labelLen + 4 ≤ cfg.maxCols ∧ cfg.maxCols ≤ 255 ∧
  cfg.labelLen + 2 + s.value.length ≤ 254 ∧
  s.editMode = true ∧
  s.view ≤ s.cursor ∧ s.cursor ≤ s.value.length ∧
  s.cursor + 1 ≤ s.view + getViewSize cfg ∧
  s.blinker = cfg.labelLen + 2 + (s.cursor - s.view)

theorem u8_eq_of_lt {n : Nat} (h : n < 256) : u8 n = n :=
  Nat.mod_eq_of_lt h

theorem u8_le (n : Nat) : u8 n ≤ 255 :=
  Nat.lt_succ_iff.mp (Nat.mod_lt _ (by omega))

theorem i2u8_le (x : Int) : i2u8 x ≤ 255 := by
  unfold i2u8; omega

theorem i2u8_natCast {n : Nat} (h : n < 256) : i2u8 (n : Int) = n := by
  unfold i2u8; omega

theorem i2u8_sub_one {b : Nat} (h1 : 1 ≤ b) (h2 : b ≤ 256) :
    i2u8 ((b : Int) - 1) = b - 1 := by
  unfold i2u8; omega

theorem getViewSize_eq {cfg : Cfg} (h1 : cfg.labelLen + 3 ≤ cfg.maxCols)
    (h2 : cfg.maxCols ≤ 255) :
    getViewSize cfg = cfg.maxCols - cfg.labelLen - 3 := by
  unfold getViewSize i2u8; omega

theorem cbp_eq (cfg : Cfg) (len pos : Nat)
    (h1 : cfg.labelLen + 4 ≤ cfg.maxCols) (h2 : cfg.maxCols ≤ 255)
    (h3 : cfg.labelLen + 2 + len ≤ 255) :
    constrainBlinkerPosition cfg len pos =
      max (cfg.labelLen + 2) (min pos (min (cfg.labelLen + 2 + len) (cfg.maxCols - 2))) := by
  unfold constrainBlinkerPosition constrainI u8 i2u8
  dsimp only
  split_ifs <;> omega

/-- C1: the claimed invariant fails on the code. On a display with view
size 2, starting from an empty value: enter, type A, type B, backspace.
Every step runs while edit mode is enabled, yet the final state has value
A of length 1, below the view size, with view offset 1 instead of 0. -/
theorem c1_view_zero_invariant_fails :
    (enter cfgNarrow stEmpty).st.editMode = true ∧
    (typeChar cfgNarrow 'A' (enter cfgNarrow stEmpty).st).st.editMode = true ∧
    (typeChar cfgNarrow 'B'
      (typeChar cfgNarrow 'A' (enter cfgNarrow stEmpty).st).st).st.editMode = true ∧
    getViewSize cfgNarrow = 2 ∧
    (backspace cfgNarrow (typeChar cfgNarrow 'B'
      (typeChar cfgNarrow 'A' (enter cfgNarrow stEmpty).st).st).st).st.value = ['A'] ∧
    (backspace cfgNarrow (typeChar cfgNarrow 'B'
      (typeChar cfgNarrow 'A' (enter cfgNarrow stEmpty).st).st).st).st.view = 1 := by
  decide

/-- C2: clear wipes the value but, contrary to the claim and to the doc
comment on the view field, leaves both cursor and view offset at their
prior values. After entering edit mode on ABCDEFG with view size 5 the
state has cursor 7 and view 3; clear empties the value yet keeps view 3
and cursor 7, so the cursor is far outside the interval from 0 to the new
length 0. -/
theorem c2_clear_keeps_cursor_and_view :
    (enter cfgWide stABCDEFG).st.cursor = 7 ∧
    (enter cfgWide stABCDEFG).st.view = 3 ∧
    (clear cfgWide (enter cfgWide stABCDEFG).st).st.value = [] ∧
    (clear cfgWide (enter cfgWide stABCDEFG).st).st.view = 3 ∧
    (clear cfgWide (enter cfgWide stABCDEFG).st).st.cursor = 7 := by
  decide

/-- C5: back invoked while edit mode is enabled returns handled, and in
this order hides the caret, disables edit mode, resets cursor and view to
0, redraws the row, and only then invokes the completion callback with the
current value; with no callback that last step is skipped and everything
else still happens. -/
theorem c5_back_commits (cfg : Cfg) (s : St) (h : s.editMode = true) :
    back cfg s = ⟨true, { s with cursor := 0, view := 0, editMode := false },
      [Ev.clearBlinker, Ev.setEditMode false, Ev.draw (s.value.take (getViewSize cfg))]
        ++ if cfg.hasCallback then [Ev.callbackCall s.value] else []⟩ := by
  simp [back, h, visibleSlice, substring]

theorem c5_back_commits_w :
    back cfgCb stHI = ⟨true, ⟨['H', 'I'], 0, 0, false, 5⟩,
      [Ev.clearBlinker, Ev.setEditMode false, Ev.draw ['H', 'I'],
        Ev.callbackCall ['H', 'I']]⟩ := by
  rw [c5_back_commits cfgCb stHI rfl]; decide

/-- C7: every operation invoked outside its valid state returns unhandled
and performs no state change and no display or callback side effect:
typeChar, left, right, backspace, clear and back while edit mode is
disabled, and enter while edit mode is already enabled. -/
theorem c7_unhandled_outside_state (cfg : Cfg) (s : St) :
    (s.editMode = false →
      (∀ c, typeChar cfg c s = ⟨false, s, []⟩) ∧
      left cfg s = ⟨false, s, []⟩ ∧
      right cfg s = ⟨false, s, []⟩ ∧
      backspace cfg s = ⟨false, s, []⟩ ∧
      clear cfg s = ⟨false, s, []⟩ ∧
      back cfg s = ⟨false, s, []⟩) ∧
    (s.editMode = true → enter cfg s = ⟨false, s, []⟩) := by
  constructor
  · intro h
    refine ⟨fun c => ?_, ?_, ?_, ?_, ?_, ?_⟩ <;>
      simp [typeChar, left, right, backspace, clear, back, h]
  · intro h
    simp [enter, h]

theorem c7_unhandled_outside_state_w :
    left cfgNarrow stEmpty = ⟨false, stEmpty, []⟩ ∧
    enter cfgNarrow stEditA = ⟨false, stEditA, []⟩ :=
  ⟨((c7_unhandled_outside_state cfgNarrow stEmpty).1 rfl).2.1,
    (c7_unhandled_outside_state cfgNarrow stEditA).2 rfl⟩

/-- C8: while edit mode is enabled, the boundary cases are no-ops that
still report handled with no state mutation and no side effect: left at
cursor 0, right with the cursor at the value length, and backspace on an
empty value or at cursor 0. -/
theorem c8_boundary_noops (cfg : Cfg) (s : St) (h : s.editMode = true) :
    (s.cursor = 0 → left cfg s = ⟨true, s, []⟩) ∧
    (s.cursor = s.value.length → right cfg s = ⟨true, s, []⟩) ∧
    (s.value.length = 0 ∨ s.cursor = 0 → backspace cfg s = ⟨true, s, []⟩) := by
  refine ⟨fun h0 => ?_, fun h0 => ?_, fun h0 => ?_⟩
  · simp [left, h, h0]
  · simp [right, h, h0]
  · unfold backspace
    rw [if_neg (by simp [h]), if_pos h0]

theorem c8_boundary_noops_w :
    backspace cfgNarrow stEdit0 = ⟨true, stEdit0, []⟩ ∧
    backspace cfgNarrow (backspace cfgNarrow stEdit0).st = ⟨true, stEdit0, []⟩ ∧
    left cfgNarrow stEdit0 = ⟨true, stEdit0, []⟩ ∧
    right cfgNarrow stEdit0 = ⟨true, stEdit0, []⟩ := by
  have h := c8_boundary_noops cfgNarrow stEdit0 rfl
  have hb := h.2.2 (Or.inl rfl)
  exact ⟨hb, by rw [hb]; exact hb, h.1 rfl, h.2.1 rfl⟩

/-- C9: entering edit mode from the viewing state and immediately exiting
with back leaves the value unchanged, both commands are handled, and the
completion callback is invoked exactly once, receiving the original
value. -/
theorem c9_enter_back_roundtrip (cfg : Cfg) (s : St) (h : s.editMode = false)
    (hc : cfg.hasCallback = true) :
    (enter cfg s).handled = true ∧
    (back cfg (enter cfg s).st).handled = true ∧
    (back cfg (enter cfg s).st).st.value = s.value ∧
    ((enter cfg s).evs ++ (back cfg (enter cfg s).st).evs).filter isCallbackEv
      = [Ev.callbackCall s.value] := by
  simp [enter, back, h, hc, isCallbackEv]

theorem c9_enter_back_roundtrip_w :
    (back cfgCb (enter cfgCb stHI0).st).st.value = stHI0.value ∧
    ((enter cfgCb stHI0).evs ++ (back cfgCb (enter cfgCb stHI0).st).evs).filter isCallbackEv
      = [Ev.callbackCall stHI0.value] := by
  have h := c9_enter_back_roundtrip cfgCb stHI0 rfl rfl
  exact ⟨h.2.2.1, h.2.2.2⟩

/-- C10: cursor and view are 8-bit stores, so enter truncates: for every
value of length at least 256, entering edit mode from the viewing state
sets the cursor to the length reduced modulo 256, which differs from the
actual length. -/
theorem c10_enter_cursor_mod_256 (cfg : Cfg) (s : St) (h : s.editMode = false)
    (hlen : 256 ≤ s.value.length) :
    (enter cfg s).st.cursor = s.value.length % 256 ∧
    (enter cfg s).st.cursor ≠ s.value.length := by
  unfold enter
  rw [if_neg (by simp [h])]
  refine ⟨rfl, ?_⟩
  show u8 s.value.length ≠ s.value.length
  unfold u8
  omega

set_option maxRecDepth 4000 in
theorem c10_enter_cursor_mod_256_w :
    256 ≤ stLong.value.length ∧
    (enter cfgWide stLong).st.cursor = stLong.value.length % 256 ∧
    (enter cfgWide stLong).st.cursor ≠ stLong.value.length := by
  have h := c10_enter_cursor_mod_256 cfgWide stLong rfl (by simp [stLong])
  exact ⟨by simp [stLong], h.1, h.2⟩

set_option maxRecDepth 4000 in
/-- C4: at a value of 256 characters the claim fails: entering edit mode
from the viewing state stores the length into the 8-bit cursor, so the
cursor becomes 0, not the value length 256. -/
theorem c4_enter_truncates_at_256 :
    stLong.editMode = false ∧
    stLong.value.length = 256 ∧
    (enter cfgWide stLong).st.cursor = 0 ∧
    (enter cfgWide stLong).st.cursor ≠ stLong.value.length := by
  have h2 : stLong.value.length = 256 := by simp [stLong]
  have hc : (enter cfgWide stLong).st.cursor = 0 := by
    show u8 stLong.value.length = 0
    rw [h2]
    rfl
  exact ⟨rfl, h2, hc, by rw [hc, h2]; omega⟩

/-- C4 amended: for every value of length at most 255 (the 8-bit range of
the cursor), entering edit mode from the viewing state sets the cursor to
the value length, and when the cursor exceeds the visible width the view
offset becomes length - (visible width - 1); in particular with visible
width 5 and value ABCDEFG entry yields cursor 7, view offset 3, and the
visible slice DEFG. -/
theorem c4_enter_amended :
    (∀ (cfg : Cfg) (s : St), s.editMode = false → s.value.length ≤ 255 →
      1 ≤ getViewSize cfg →
      (enter cfg s).handled = true ∧
      (enter cfg s).st.cursor = s.value.length ∧
      (getViewSize cfg < s.value.length →
        (enter cfg s).st.view = s.value.length - (getViewSize cfg - 1))) ∧
    ((enter cfgWide stABCDEFG).st.cursor = 7 ∧
      (enter cfgWide stABCDEFG).st.view = 3 ∧
      visibleSlice cfgWide (enter cfgWide stABCDEFG).st = ['D', 'E', 'F', 'G']) := by
  constructor
  · intro cfg s h hlen hvs
    have hu : u8 s.value.length = s.value.length := u8_eq_of_lt (by omega)
    unfold enter
    rw [if_neg (by simp [h])]
    dsimp only
    rw [hu]
    refine ⟨rfl, rfl, fun hgt => ?_⟩
    rw [if_pos hgt]
    unfold i2u8
    omega
  · decide

theorem c4_enter_amended_w :
    stABCDEFG.editMode = false ∧ stABCDEFG.value.length ≤ 255 ∧
    1 ≤ getViewSize cfgWide ∧
    (enter cfgWide stABCDEFG).st.cursor = stABCDEFG.value.length ∧
    (getViewSize cfgWide < stABCDEFG.value.length →
      (enter cfgWide stABCDEFG).st.view
        = stABCDEFG.value.length - (getViewSize cfgWide - 1)) := by
  have h := c4_enter_amended.1 cfgWide stABCDEFG rfl (by decide) (by decide)
  exact ⟨rfl, by decide, by decide, h.2.1, h.2.2⟩

/-- C6: while edit mode is enabled, typeChar splices the typed character
in at the cursor (old prefix of cursor length, the character, the old
suffix) and advances the cursor by one, for any value of length at most
255 and cursor at most 254; and backspace with a positive cursor inside a
nonempty value removes exactly the character before the cursor and
decrements the cursor by one. -/
theorem c6_insert_and_delete :
    (∀ (cfg : Cfg) (s : St) (c : Char), s.editMode = true →
      s.value.length ≤ 255 → s.cursor ≤ 254 →
      (typeChar cfg c s).st.value
        = s.value.take s.cursor ++ [c] ++ s.value.drop s.cursor ∧
      (typeChar cfg c s).st.cursor = s.cursor + 1) ∧
    (∀ (cfg : Cfg) (s : St), s.editMode = true → 1 ≤ s.cursor →
      s.cursor ≤ s.value.length →
      (backspace cfg s).st.value
        = s.value.take (s.cursor - 1) ++ s.value.drop s.cursor ∧
      (backspace cfg s).st.cursor = s.cursor - 1) := by
  constructor
  · intro cfg s c h hlen hc
    have hu : u8 s.value.length = s.value.length := u8_eq_of_lt (by omega)
    have hu1 : u8 (s.cursor + 1) = s.cursor + 1 := u8_eq_of_lt (by omega)
    unfold typeChar
    rw [if_neg (by simp [h])]
    dsimp only
    rw [hu, hu1]
    refine ⟨?_, rfl⟩
    by_cases hlt : s.cursor < s.value.length
    · rw [if_pos hlt]
      unfold concat substring
      rw [List.drop_zero]
      have hd : (s.value.drop s.cursor).take (s.value.length - s.cursor)
          = s.value.drop s.cursor := by
        rw [← List.length_drop]; exact List.take_length _
      rw [hd]
    · rw [if_neg hlt]
      unfold concat
      have hge : s.value.length ≤ s.cursor := Nat.le_of_not_lt hlt
      rw [List.take_of_length_le hge, List.drop_eq_nil_of_le hge]
  · intro cfg s h h1 hle
    unfold backspace
    rw [if_neg (by simp [h]), if_neg (by omega)]
    dsimp only
    refine ⟨?_, rfl⟩
    show remove s.value (s.cursor - 1) 1 = _
    unfold remove
    rw [Nat.sub_add_cancel h1]

theorem c6_insert_and_delete_w :
    (backspace cfgWide stHELLO).st.value = ['H', 'L', 'L', 'O'] ∧
    (backspace cfgWide stHELLO).st.cursor = 1 ∧
    (typeChar cfgCb 'X' stHI).st.value = ['H', 'I', 'X'] ∧
    (typeChar cfgCb 'X' stHI).st.cursor = 3 := by
  have hb := c6_insert_and_delete.2 cfgWide stHELLO rfl (by decide) (by decide)
  have ht := c6_insert_and_delete.1 cfgCb stHI 'X' rfl (by decide) (by decide)
  exact ⟨hb.1.trans (by decide), hb.2, ht.1.trans (by decide), ht.2⟩

theorem wf_blinker_spec (cfg : Cfg) (s : St) (h : WF cfg s) :
    s.blinker = specCaretPosition cfg s := by
  obtain ⟨hmc, hmc2, hlv, hedit, hvc, hcl, hwin, hbl⟩ := h
  have hvs : getViewSize cfg = cfg.maxCols - cfg.labelLen - 3 :=
    getViewSize_eq (by omega) hmc2
  unfold specCaretPosition
  dsimp only
  omega

theorem left_caret (cfg : Cfg) (s : St) (h : WF cfg s) :
    (left cfg s).st.blinker = specCaretPosition cfg (left cfg s).st := by
  have hWF := h
  obtain ⟨hmc, hmc2, hlv, hedit, hvc, hcl, hwin, hbl⟩ := h
  have hvs : getViewSize cfg = cfg.maxCols - cfg.labelLen - 3 :=
    getViewSize_eq (by omega) hmc2
  by_cases h0 : s.cursor = 0
  · unfold left
    rw [if_neg (by simp [hedit]), if_pos h0]
    dsimp only
    exact wf_blinker_spec cfg s hWF
  · unfold left
    rw [if_neg (by simp [hedit]), if_neg h0]
    dsimp only
    have hb1 : i2u8 ((s.blinker : Int) - 1) = s.blinker - 1 :=
      i2u8_sub_one (by omega) (by omega)
    rw [hb1]
    by_cases hsc : s.cursor - 1 < s.view
    · simp only [if_pos hsc]
      refine (cbp_eq _ _ _ ?_ hmc2 ?_).trans ?_
      · omega
      · omega
      · unfold specCaretPosition
        dsimp only
        omega
    · simp only [if_neg hsc]
      refine (cbp_eq _ _ _ ?_ hmc2 ?_).trans ?_
      · omega
      · omega
      · unfold specCaretPosition
        dsimp only
        omega

theorem right_caret (cfg : Cfg) (s : St) (h : WF cfg s) :
    (right cfg s).st.blinker = specCaretPosition cfg (right cfg s).st := by
  have hWF := h
  obtain ⟨hmc, hmc2, hlv, hedit, hvc, hcl, hwin, hbl⟩ := h
  have hvs : getViewSize cfg = cfg.maxCols - cfg.labelLen - 3 :=
    getViewSize_eq (by omega) hmc2
  by_cases h0 : s.cursor = s.value.length
  · unfold right
    rw [if_neg (by simp [hedit]), if_pos h0]
    dsimp only
    exact wf_blinker_spec cfg s hWF
  · unfold right
    rw [if_neg (by simp [hedit]), if_neg h0]
    dsimp only
    have hu1 : u8 (s.cursor + 1) = s.cursor + 1 := u8_eq_of_lt (by omega)
    have hub : u8 (s.blinker + 1) = s.blinker + 1 := u8_eq_of_lt (by omega)
    rw [hu1, hub]
    by_cases hsc : s.view + getViewSize cfg ≤ s.cursor + 1
    · simp only [if_pos hsc]
      have hv1 : u8 (s.view + 1) = s.view + 1 := u8_eq_of_lt (by omega)
      rw [hv1]
      refine (cbp_eq _ _ _ ?_ hmc2 ?_).trans ?_
      · omega
      · omega
      · unfold specCaretPosition
        dsimp only
        omega
    · simp only [if_neg hsc]
      refine (cbp_eq _ _ _ ?_ hmc2 ?_).trans ?_
      · omega
      · omega
      · unfold specCaretPosition
        dsimp only
        omega

theorem backspace_caret (cfg : Cfg) (s : St) (h : WF cfg s) :
    (backspace cfg s).st.blinker = specCaretPosition cfg (backspace cfg s).st := by
  have hWF := h
  obtain ⟨hmc, hmc2, hlv, hedit, hvc, hcl, hwin, hbl⟩ := h
  have hvs : getViewSize cfg = cfg.maxCols - cfg.labelLen - 3 :=
    getViewSize_eq (by omega) hmc2
  by_cases h0 : s.value.length = 0 ∨ s.cursor = 0
  · unfold backspace
    rw [if_neg (by simp [hedit]), if_pos h0]
    dsimp only
    exact wf_blinker_spec cfg s hWF
  · unfold backspace
    rw [if_neg (by simp [hedit]), if_neg h0]
    dsimp only
    rw [not_or] at h0
    obtain ⟨hL0, hc0⟩ := h0
    have hlen1 : (remove s.value (s.cursor - 1) 1).length = s.value.length - 1 := by
      unfold remove
      rw [List.length_append, List.length_take, List.length_drop]
      omega
    have hb1 : i2u8 ((s.blinker : Int) - 1) = s.blinker - 1 :=
      i2u8_sub_one (by omega) (by omega)
    rw [hb1, hlen1]
    by_cases hsc : s.cursor - 1 < s.view
    · simp only [if_pos hsc]
      refine (cbp_eq _ _ _ ?_ hmc2 ?_).trans ?_
      · omega
      · omega
      · unfold specCaretPosition
        dsimp only
        rw [hlen1]
        omega
    · simp only [if_neg hsc]
      refine (cbp_eq _ _ _ ?_ hmc2 ?_).trans ?_
      · omega
      · omega
      · unfold specCaretPosition
        dsimp only
        rw [hlen1]
        omega

theorem clear_caret (cfg : Cfg) (s : St) (h : WF cfg s) :
    (clear cfg s).st.blinker = specCaretPosition cfg (clear cfg s).st := by
  obtain ⟨hmc, hmc2, hlv, hedit, hvc, hcl, hwin, hbl⟩ := h
  unfold clear
  rw [if_neg (by simp [hedit])]
  dsimp only
  have hlb : u8 (cfg.labelLen + 2) = cfg.labelLen + 2 := u8_eq_of_lt (by omega)
  rw [hlb]
  refine (cbp_eq _ _ _ ?_ hmc2 ?_).trans ?_
  · omega
  · omega
  · unfold specCaretPosition
    dsimp only
    simp only [List.length_nil]
    omega

theorem typeChar_caret (cfg : Cfg) (s : St) (c : Char) (h : WF cfg s) :
    (typeChar cfg c s).st.blinker = specCaretPosition cfg (typeChar cfg c s).st := by
  obtain ⟨hmc, hmc2, hlv, hedit, hvc, hcl, hwin, hbl⟩ := h
  have hvs : getViewSize cfg = cfg.maxCols - cfg.labelLen - 3 :=
    getViewSize_eq (by omega) hmc2
  unfold typeChar
  rw [if_neg (by simp [hedit])]
  dsimp only
  have hu : u8 s.value.length = s.value.length := u8_eq_of_lt (by omega)
  have hu1 : u8 (s.cursor + 1) = s.cursor + 1 := u8_eq_of_lt (by omega)
  have hub : u8 (s.blinker + 1) = s.blinker + 1 := u8_eq_of_lt (by omega)
  rw [hu, hu1, hub]
  by_cases hlt : s.cursor < s.value.length
  · simp only [if_pos hlt]
    have hL : (concat (substring s.value 0 s.cursor)
        c (substring s.value s.cursor (s.value.length - s.cursor))).length
        = s.value.length + 1 := by
      unfold concat substring
      simp only [List.length_append, List.length_take, List.length_drop,
        List.drop_zero, List.length_cons, List.length_nil]
      omega
    rw [hL]
    by_cases hsc : s.view + getViewSize cfg ≤ s.cursor + 1
    · simp only [if_pos hsc]
      have hv1 : u8 (s.view + 1) = s.view + 1 := u8_eq_of_lt (by omega)
      rw [hv1]
      refine (cbp_eq _ _ _ ?_ hmc2 ?_).trans ?_
      · omega
      · omega
      · unfold specCaretPosition
        dsimp only
        rw [hL]
        omega
    · simp only [if_neg hsc]
      refine (cbp_eq _ _ _ ?_ hmc2 ?_).trans ?_
      · omega
      · omega
      · unfold specCaretPosition
        dsimp only
        rw [hL]
        omega
  · simp only [if_neg hlt]
    have hL : (concat s.value c []).length = s.value.length + 1 := by
      unfold concat
      simp
    rw [hL]
    by_cases hsc : s.view + getViewSize cfg ≤ s.cursor + 1
    · simp only [if_pos hsc]
      have hv1 : u8 (s.view + 1) = s.view + 1 := u8_eq_of_lt (by omega)
      rw [hv1]
      refine (cbp_eq _ _ _ ?_ hmc2 ?_).trans ?_
      · omega
      · omega
      · unfold specCaretPosition
        dsimp only
        rw [hL]
        omega
    · simp only [if_neg hsc]
      refine (cbp_eq _ _ _ ?_ hmc2 ?_).trans ?_
      · omega
      · omega
      · unfold specCaretPosition
        dsimp only
        rw [hL]
        omega

theorem enter_caret (cfg : Cfg) (s : St) (h1 : cfg.labelLen + 4 ≤ cfg.maxCols)
    (h2 : cfg.maxCols ≤ 255) (h3 : cfg.labelLen + 2 + s.value.length ≤ 254)
    (h4 : s.editMode = false) (h5 : s.view = 0) :
    (enter cfg s).st.blinker = specCaretPosition cfg (enter cfg s).st := by
  have hvs : getViewSize cfg = cfg.maxCols - cfg.labelLen - 3 :=
    getViewSize_eq (by omega) h2
  have hu : u8 s.value.length = s.value.length := u8_eq_of_lt (by omega)
  unfold enter
  rw [if_neg (by simp [h4])]
  dsimp only
  rw [hu, h5]
  by_cases hgt : getViewSize cfg < s.value.length
  · simp only [if_pos hgt]
    refine (cbp_eq _ _ _ ?_ h2 ?_).trans ?_
    · omega
    · omega
    · unfold specCaretPosition i2u8
      dsimp only
      omega
  · simp only [if_neg hgt]
    refine (cbp_eq _ _ _ ?_ h2 ?_).trans ?_
    · omega
    · omega
    · unfold specCaretPosition i2u8
      dsimp only
      omega

/-- C3: the caret formula of the claim fails on the code. Entering edit
mode on the value AB with visible width 2 puts cursor 2 and view 0, the
caret clamped to column 7; the subsequent left sets cursor 1, for which
the formula gives column 4 + 2 + 1 = 7, but the code decrements the
stored caret to 6. -/
theorem c3_caret_formula_fails :
    (left cfgNarrow (enter cfgNarrow stAB).st).st.blinker = 6 ∧
    specCaretPosition cfgNarrow (left cfgNarrow (enter cfgNarrow stAB).st).st = 7 := by
  decide

/-- C3 amended: the unrestricted claim fails (see the counterexample); it
holds with the clamp margin restored. After enter from the viewing state
(view 0, label and value within the display and 8-bit bounds) and after
clear, the stored caret equals the formula; and each of left, right,
backspace, typeChar performed in a well-formed editing state, namely one
whose cursor lies inside the value and strictly inside the window
(cursor + 1 at most view + visible width) and whose stored caret is the
unclamped projection label_len + 2 + (cursor - view), again leaves the
stored caret equal to the formula label_len + 2 + (cursor - view) clamped
into the range of the claim. -/
theorem c3_caret_amended :
    (∀ (cfg : Cfg) (s : St), WF cfg s →
      (left cfg s).st.blinker = specCaretPosition cfg (left cfg s).st ∧
      (right cfg s).st.blinker = specCaretPosition cfg (right cfg s).st ∧
      (backspace cfg s).st.blinker = specCaretPosition cfg (backspace cfg s).st ∧
      (clear cfg s).st.blinker = specCaretPosition cfg (clear cfg s).st ∧
      ∀ c, (typeChar cfg c s).st.blinker = specCaretPosition cfg (typeChar cfg c s).st) ∧
    (∀ (cfg : Cfg) (s : St), cfg.labelLen + 4 ≤ cfg.maxCols → cfg.maxCols ≤ 255 →
      cfg.labelLen + 2 + s.value.length ≤ 254 → s.editMode = false → s.view = 0 →
      (enter cfg s).st.blinker = specCaretPosition cfg (enter cfg s).st) :=
  ⟨fun cfg s h => ⟨left_caret cfg s h, right_caret cfg s h, backspace_caret cfg s h,
    clear_caret cfg s h, fun c => typeChar_caret cfg s c h⟩,
    fun cfg s h1 h2 h3 h4 h5 => enter_caret cfg s h1 h2 h3 h4 h5⟩

theorem c3_caret_amended_w :
    WF cfgCb stHI ∧
    (left cfgCb stHI).st.blinker = specCaretPosition cfgCb (left cfgCb stHI).st ∧
    (enter cfgCb stHI0).st.blinker = specCaretPosition cfgCb (enter cfgCb stHI0).st := by
  have hwf : WF cfgCb stHI := by
    refine ⟨?_, ?_, ?_, rfl, ?_, ?_, ?_, ?_⟩ <;> decide
  exact ⟨hwf, (c3_caret_amended.1 cfgCb stHI hwf).1,
    c3_caret_amended.2 cfgCb stHI0 (by decide) (by decide) (by decide) rfl rfl⟩

end LcdMenu
